import Mathlib

/-!
# GPU operator kernels of rocm-caffe2: a shallow embedding

Embedded sources:

* `caffe2/operators/abs_op_hip.cc` (`AbsKernel`, `AbsGradientKernel`)
* `caffe2/sgd/fp32_momentum_sgd_op_hip.cc` (`FP32MomentumSGDKernel`,
  `fp32_momentum_sgd_update<HIPContext>`)
* `caffe2/operators/mem_query_op_hip.cc` (`GetGPUMemoryUsageOp::RunOnDevice`)
* `caffe2/operators/relu_op_miopen.cc` (`MiOPENReluOp::DoRunWithType`,
  `MiOPENReluGradientOp::DoRunWithType`)

Device memory is a map from a pointer (the buffer it points to) and an index
to the element stored there; two pointer arguments of a kernel may be the same
buffer (an operator run in place) or different buffers.
-/

set_option autoImplicit false

namespace caffe2

/-! ## Device memory -/

/-- A device pointer `T*`, identified with the buffer it points to; `0` is
the null pointer. -/
abbrev Ptr := Nat

/-- The store `p[i] = v`. -/
def store {α : Type} (h : Ptr → Nat → α) (p : Ptr) (i : Nat) (v : α) : Ptr → Nat → α :=
  fun q j => if q = p ∧ j = i then v else h q j

/-- The elements all buffers hold at index `j`. -/
def slice {α : Type} (h : Ptr → Nat → α) (j : Nat) : Ptr → α :=
  fun q => h q j

/-- A memory that holds the given elements at every index. -/
def ofSlice {α : Type} (sl : Ptr → α) : Ptr → Nat → α :=
  fun q _ => sl q

/-! ## Kernel launch and the 1-d kernel loop -/

/-- The loop of one device thread,
`for (int i = start; i < n; i += stride) body(i)`;
`fuel` bounds the number of iterations (every thread makes at most `n`). -/
def threadLoop {σ : Type} (stride n : Nat) (body : Nat → σ → σ) : Nat → Nat → σ → σ
  | 0, _, s => s
  | fuel + 1, i, s =>
    if i < n then threadLoop stride n body fuel (i + stride) (body i s) else s

/-- Modelled from the spec: the kernel-loop macro `HIP_1D_KERNEL_LOOP(i, n)`
(spelled `CUDA_1D_KERNEL_LOOP` in the hipified sources) comes from the
framework header `common_hip.h`, which is not part of the sources. It is the
grid-stride loop
`for (int i = blockIdx.x * blockDim.x + threadIdx.x; i < n; i += blockDim.x * gridDim.x)`
run by each of the `gridDim * blockDim` threads of the launch. The threads are
taken one after the other in the order of their global index; an `n` that is
not positive leaves no iteration. -/
def HIP_1D_KERNEL_LOOP {σ : Type} (gridDim blockDim : Nat) (n : Int)
    (body : Nat → σ → σ) (s : σ) : σ :=
  (List.range (gridDim * blockDim)).foldl
    (fun acc tid => threadLoop (blockDim * gridDim) n.toNat body n.toNat tid acc) s

/-! ## abs_op_hip.cc -/

/-- The C library `fabs` on an ordered number type. -/
def fabs {R : Type} [LinearOrderedRing R] (x : R) : R :=
  if x < 0 then -x else x

/-- Body of the loop of `AbsKernel`: `Y[i] = fabs(X[i]);`. -/
def AbsKernel.body {R : Type} [LinearOrderedRing R] (X Y : Ptr) (i : Nat)
    (h : Ptr → Nat → R) : Ptr → Nat → R :=
  store h Y i (fabs (h X i))

/-- `AbsKernel<T>(N, X, Y)` launched on a grid of `gridDim` blocks of
`blockDim` threads, from the memory `h`; the result is the memory after the
kernel. -/
def AbsKernel {R : Type} [LinearOrderedRing R] (gridDim blockDim : Nat) (N : Int)
    (X Y : Ptr) (h : Ptr → Nat → R) : Ptr → Nat → R :=
  HIP_1D_KERNEL_LOOP gridDim blockDim N (AbsKernel.body X Y) h

/-- Body of the loop of `AbsGradientKernel`:
`dX[i] = X[i] == T(0) ? T(0) : (X[i] > T(0) ? dY[i] : -dY[i]);`. -/
def AbsGradientKernel.body {R : Type} [LinearOrderedRing R] (X dY dX : Ptr) (i : Nat)
    (h : Ptr → Nat → R) : Ptr → Nat → R :=
  store h dX i (if h X i = 0 then 0 else (if h X i > 0 then h dY i else -h dY i))

/-- `AbsGradientKernel<T>(N, X, dY, dX)` launched on a grid of `gridDim` blocks
of `blockDim` threads, from the memory `h`; the result is the memory after the
kernel. -/
def AbsGradientKernel {R : Type} [LinearOrderedRing R] (gridDim blockDim : Nat) (N : Int)
    (X dY dX : Ptr) (h : Ptr → Nat → R) : Ptr → Nat → R :=
  HIP_1D_KERNEL_LOOP gridDim blockDim N (AbsGradientKernel.body X dY dX) h

/-! ## fp32_momentum_sgd_op_hip.cc -/

/-- The HIP vector type `float2`. -/
structure float2 (R : Type) where
  x : R
  y : R

/-- Device intrinsic `__fmaf_rn(a, b, c)`, read as exact arithmetic. -/
def __fmaf_rn {R : Type} [CommRing R] (a b c : R) : R := a * b + c

/-- Device intrinsic `__fmul_rn(a, b)`, read as exact arithmetic. -/
def __fmul_rn {R : Type} [CommRing R] (a b : R) : R := a * b

/-- Device intrinsic `__fsub_rn(a, b)`, read as exact arithmetic. -/
def __fsub_rn {R : Type} [CommRing R] (a b : R) : R := a - b

/-- Loop body of `FP32MomentumSGDKernel` in the branch `!nesterov`
(source lines 31-46), one store after the other. -/
def FP32MomentumSGDKernel.body {R : Type} [CommRing R] (g m ng nm : Ptr)
    (LR momentum weight_decay : R) (param : Ptr) (i : Nat) (h0 : Ptr → Nat → float2 R) :
    Ptr → Nat → float2 R :=
  let h1 := store h0 ng i
    { h0 ng i with x := __fmaf_rn weight_decay (h0 param i).x (h0 g i).x }
  let h2 := store h1 ng i
    { h1 ng i with y := __fmaf_rn weight_decay (h1 param i).y (h1 g i).y }
  let mi_float2 := h2 m i
  let adjusted_gradient_float2 : float2 R :=
    { x := __fmaf_rn LR (h2 ng i).x (__fmul_rn momentum mi_float2.x)
      y := __fmaf_rn LR (h2 ng i).y (__fmul_rn momentum mi_float2.y) }
  let h3 := store h2 nm i adjusted_gradient_float2
  let h4 := store h3 ng i adjusted_gradient_float2
  if param ≠ 0 then
    let h5 := store h4 param i
      { h4 param i with x := __fsub_rn (h4 param i).x adjusted_gradient_float2.x }
    let h6 := store h5 param i
      { h5 param i with y := __fsub_rn (h5 param i).y adjusted_gradient_float2.y }
    h6
  else h4

/-- Loop body of `FP32MomentumSGDKernel` in the branch `nesterov`
(source lines 56-77), one store after the other. -/
def FP32MomentumSGDKernel.bodyNesterov {R : Type} [CommRing R] (g m ng nm : Ptr)
    (LR momentum weight_decay : R) (param : Ptr) (i : Nat) (h0 : Ptr → Nat → float2 R) :
    Ptr → Nat → float2 R :=
  let h1 := store h0 ng i
    { h0 ng i with x := __fmaf_rn weight_decay (h0 param i).x (h0 g i).x }
  let h2 := store h1 ng i
    { h1 ng i with y := __fmaf_rn weight_decay (h1 param i).y (h1 g i).y }
  let mi_float2 := h2 m i
  let mom_mi_float2 : float2 R :=
    { x := __fmul_rn momentum mi_float2.x
      y := __fmul_rn momentum mi_float2.y }
  let mi_new_float2 : float2 R :=
    { x := __fmaf_rn LR (h2 ng i).x mom_mi_float2.x
      y := __fmaf_rn LR (h2 ng i).y mom_mi_float2.y }
  let h3 := store h2 nm i mi_new_float2
  let h4 := store h3 ng i
    { h3 ng i with
      x := __fsub_rn (__fmaf_rn mi_new_float2.x momentum mi_new_float2.x) mom_mi_float2.x }
  let h5 := store h4 ng i
    { h4 ng i with
      y := __fsub_rn (__fmaf_rn mi_new_float2.y momentum mi_new_float2.y) mom_mi_float2.y }
  if param ≠ 0 then
    let h6 := store h5 param i
      { h5 param i with x := __fsub_rn (h5 param i).x (h5 ng i).x }
    let h7 := store h6 param i
      { h6 param i with y := __fsub_rn (h6 param i).y (h6 ng i).y }
    h7
  else h5

/-- `FP32MomentumSGDKernel(N, g, m, ng, nm, lr, mom, nesterov, wd, param)`
launched on a grid of `gridDim` blocks of `blockDim` threads, from the memory
`h` of `float2` elements; `lr` is the read-only buffer of the learning rate.
The result is the memory after the kernel. `N / 2` is the C division of
`int`. -/
def FP32MomentumSGDKernel {R : Type} [CommRing R] (gridDim blockDim : Nat) (N : Int)
    (g m ng nm : Ptr) (lr : Nat → R) (mom : R) (nesterov : Bool) (wd : R) (param : Ptr)
    (h : Ptr → Nat → float2 R) : Ptr → Nat → float2 R :=
  let lr2 := lr 0
  let LR := lr2
  let momentum := mom
  let weight_decay := wd
  let n := Int.tdiv N 2
  if !nesterov then
    HIP_1D_KERNEL_LOOP gridDim blockDim n
      (FP32MomentumSGDKernel.body g m ng nm LR momentum weight_decay param) h
  else
    HIP_1D_KERNEL_LOOP gridDim blockDim n
      (FP32MomentumSGDKernel.bodyNesterov g m ng nm LR momentum weight_decay param) h

/-- The casts `reinterpret_cast<float2*>(p)` of the `float*` arguments: the
memory of floats seen as `float2` elements, element `i` of a buffer holding
its floats `2 * i` and `2 * i + 1`. -/
def reinterpret_cast_float2 {R : Type} (h : Ptr → Nat → R) : Ptr → Nat → float2 R :=
  fun p i => { x := h p (2 * i), y := h p (2 * i + 1) }

/-- The floats of a memory of `float2` elements. -/
def float2_as_float {R : Type} (h : Ptr → Nat → float2 R) : Ptr → Nat → R :=
  fun p j => if j % 2 = 0 then (h p (j / 2)).x else (h p (j / 2)).y

/-- `fp32_momentum_sgd_update<HIPContext>(N, g, m, ng, nm, lr, momentum,
nesterov, weight_decay, param, context)` from the memory `h` of floats. The
launch constants `CAFFE_GET_BLOCKS` and `CAFFE_HIP_NUM_THREADS` come from a
framework header that is not part of the sources and are parameters. The
result is the memory after the call. -/
def fp32_momentum_sgd_update {R : Type} [CommRing R] (CAFFE_GET_BLOCKS : Int → Nat)
    (CAFFE_HIP_NUM_THREADS : Nat) (N : Int) (g m ng nm : Ptr) (lr : Nat → R)
    (momentum : R) (nesterov : Bool) (weight_decay : R) (param : Ptr)
    (h : Ptr → Nat → R) : Ptr → Nat → R :=
  float2_as_float
    (FP32MomentumSGDKernel (CAFFE_GET_BLOCKS (Int.tdiv N 2)) CAFFE_HIP_NUM_THREADS N
      g m ng nm lr momentum nesterov weight_decay param (reinterpret_cast_float2 h))

/-! ## mem_query_op_hip.cc -/

/-- A tensor of `long`: its dims and its flat data buffer. -/
structure Tensor where
  dims : List Nat
  data : Nat → Int

/-- Modelled from the spec: `Tensor::Resize` belongs to the external tensor
abstraction, which is not part of the sources. It sets the dims; the contents
of the buffer are whatever they were. -/
def Tensor.Resize (t : Tensor) (dims : List Nat) : Tensor :=
  { t with dims := dims }

/-- Number of items of a tensor, the product of its dims. -/
def Tensor.size (t : Tensor) : Nat := t.dims.prod

/-- The flat contents of a tensor, row-major. -/
def Tensor.flat (t : Tensor) : List Int := (List.range t.size).map t.data

/-- The buffer `v.data()` of a `std::vector<long>`. -/
def vector_data (v : List Int) : Nat → Int := fun k => v.getD k 0

/-- Modelled from the spec: `HIPContext::Copy<T, SrcContext, DstContext>(n,
src, dst)` belongs to the external device-context layer, which is not part of
the sources. It copies `n` items from `src` to `dst`; the destination pointer
is `buf + off`. -/
def Copy (n : Nat) (src : Nat → Int) (buf : Nat → Int) (off : Nat) : Nat → Int :=
  fun k => if off ≤ k ∧ k < off + n then src (k - off) else buf k

/-- `GetGPUMemoryUsageOp::RunOnDevice`. The inputs are the operator's numbers
of inputs and outputs, the two vectors `HIPContext::TotalMemoryByGpu()` and
`HIPContext::MaxMemoryByGpu()` return, and the output blob `Output(0)` as it
is before the run. A failing `CHECK_EQ` aborts: `none`. -/
def GetGPUMemoryUsageOp.RunOnDevice (InputSize OutputSize : Nat)
    (TotalMemoryByGpu MaxMemoryByGpu : List Int) (Output0 : Tensor) :
    Option (Bool × Tensor) :=
  if InputSize ≠ 0 then none
  else if OutputSize ≠ 1 then none
  else
    let total_by_gpu := TotalMemoryByGpu
    let max_by_gpu := MaxMemoryByGpu
    if total_by_gpu.length ≠ max_by_gpu.length then none
    else
      let stats := Output0.Resize [2, total_by_gpu.length]
      let data1 := Copy total_by_gpu.length (vector_data total_by_gpu) stats.data 0
      let data2 := Copy max_by_gpu.length (vector_data max_by_gpu) data1 total_by_gpu.length
      some (true, { stats with data := data2 })

/-! ## relu_op_miopen.cc -/

/-- The largest `int`, `std::numeric_limits<int>::max()`. -/
def INT_MAX : Int := 2147483647

/-- Conversion of a 64-bit `TIndex` value to `int` (two's complement wrap). -/
def int_cast (v : Int) : Int := (v + 2147483648) % 4294967296 - 2147483648

/-- The largest `TIndex`, `std::numeric_limits<int64_t>::max()`. -/
def INT64_MAX : Int := 9223372036854775807

/-- A product of dims held in the 64-bit `TIndex` (two's complement wrap). -/
def TIndex_cast (v : Int) : Int :=
  (v + 9223372036854775808) % 18446744073709551616 - 9223372036854775808

/-- `X.size()`: the number of items, the product of the dims as a 64-bit
`TIndex`. -/
def size (dims : List Nat) : Int := TIndex_cast ((dims.prod : Nat) : Int)

/-- `X.ndim()`. -/
def ndim (dims : List Nat) : Nat := dims.length

/-- Modelled from the spec: the accessor `dim32` belongs to the external
tensor abstraction, which is not part of the sources. It yields dimension `i`
as an `int`; it is defined when the index exists and the dimension is below
`INT_MAX`, the bound the accessor enforces. -/
def dim32 (dims : List Nat) (i : Nat) : Option Int :=
  match dims[i]? with
  | some d => if (d : Int) < INT_MAX then some (d : Int) else none
  | none => none

/-- The members of the two Relu operators that `DoRunWithType` reads and
writes: the cached dims and the 4-d tensor descriptor
(`none`: created, dimensions not set yet). -/
structure MiOPENReluState where
  miopen_input_dims_ : List Nat
  data_desc_ : Option (Int × Int × Int × Int)
deriving DecidableEq

/-- `MiOPENReluOp::DoRunWithType<T>` on an input `X` with the given dims:
the return value and the members after the run; `none` when an enforce fails
or the division is undefined. The vendor calls are taken to succeed. -/
def MiOPENReluOp.DoRunWithType (X : List Nat) (self : MiOPENReluState) :
    Option (Bool × MiOPENReluState) :=
  if size X = 0 then some (true, self)
  else if X ≠ self.miopen_input_dims_ then do
    let (C, H, W) ← (
      if ndim X = 4 then do
        let C ← dim32 X 1
        let H ← dim32 X 2
        let W ← dim32 X 3
        pure (C, H, W)
      else do
        let d0 ← dim32 X 0
        if d0 = 0 then none else pure (int_cast (Int.tdiv (size X) d0), (1 : Int), (1 : Int)))
    let n ← dim32 X 0
    pure (true, { miopen_input_dims_ := X, data_desc_ := some (n, C, H, W) })
  else some (true, self)

/-- `MiOPENReluGradientOp::DoRunWithType<T>` on an input `Y` with the given
dims: the return value and the members after the run. -/
def MiOPENReluGradientOp.DoRunWithType (Y : List Nat) (self : MiOPENReluState) :
    Option (Bool × MiOPENReluState) :=
  if size Y = 0 then some (true, self)
  else if Y ≠ self.miopen_input_dims_ then do
    let (C, H, W) ← (
      if ndim Y = 4 then do
        let C ← dim32 Y 1
        let H ← dim32 Y 2
        let W ← dim32 Y 3
        pure (C, H, W)
      else do
        let d0 ← dim32 Y 0
        if d0 = 0 then none else pure (int_cast (Int.tdiv (size Y) d0), (1 : Int), (1 : Int)))
    let n ← dim32 Y 0
    pure (true, { miopen_input_dims_ := Y, data_desc_ := some (n, C, H, W) })
  else some (true, self)

/-- The members right after construction: no cached dims, descriptor unset. -/
def MiOPENReluState.init : MiOPENReluState :=
  { miopen_input_dims_ := [], data_desc_ := none }

/-! ## The kernel loop visits every index below `n` exactly once -/

section Loop

variable {σ β : Type}

/-- One thread started at `i` applies the body to exactly the indices
`i, i + stride, i + 2 * stride, ...` below `n`. -/
theorem threadLoop_slice (π : σ → Nat → β) (f : Nat → β → β) (body : Nat → σ → σ)
    (hframe : ∀ i j s, i ≠ j → π (body i s) j = π s j)
    (hlocal : ∀ i s, π (body i s) i = f i (π s i))
    (stride n : Nat) (hs : 0 < stride) (j : Nat) :
    ∀ (fuel i : Nat) (s : σ), n ≤ i + fuel →
      π (threadLoop stride n body fuel i s) j =
        if i ≤ j ∧ j < n ∧ j % stride = i % stride then f j (π s j) else π s j := by
  intro fuel
  induction fuel with
  | zero =>
    intro i s h
    have : ¬ (i ≤ j ∧ j < n ∧ j % stride = i % stride) := by
      rintro ⟨h1, h2, -⟩
      omega
    simp [threadLoop, this]
  | succ fuel ih =>
    intro i s h
    unfold threadLoop
    by_cases hin : i < n
    · rw [if_pos hin, ih (i + stride) (body i s) (by omega)]
      by_cases hji : j = i
      · subst hji
        have h1 : ¬ (j + stride ≤ j ∧ j < n ∧ j % stride = (j + stride) % stride) := by
          rintro ⟨h1, -, -⟩
          omega
        rw [if_neg h1, if_pos ⟨le_refl _, hin, rfl⟩, hlocal]
      · have hne : i ≠ j := fun h => hji h.symm
        rw [hframe i j s hne]
        have hiff : (i + stride ≤ j ∧ j < n ∧ j % stride = (i + stride) % stride) ↔
            (i ≤ j ∧ j < n ∧ j % stride = i % stride) := by
          rw [Nat.add_mod_right]
          constructor
          · rintro ⟨h1, h2, h3⟩
            exact ⟨by omega, h2, h3⟩
          · rintro ⟨h1, h2, h3⟩
            refine ⟨?_, h2, h3⟩
            have hdvd : stride ∣ j - i := (Nat.modEq_iff_dvd' h1).1 h3.symm
            have hpos : 0 < j - i := by omega
            have := Nat.le_of_dvd hpos hdvd
            omega
        by_cases hc : (i ≤ j ∧ j < n ∧ j % stride = i % stride)
        · rw [if_pos hc, if_pos (hiff.2 hc)]
        · rw [if_neg hc, if_neg (fun h => hc (hiff.1 h))]
    · rw [if_neg hin]
      have : ¬ (i ≤ j ∧ j < n ∧ j % stride = i % stride) := by
        rintro ⟨h1, h2, -⟩
        omega
      rw [if_neg this]

/-- After the first `k` threads of a grid of `T` threads, exactly the
indices `j < n` with `j % T < k` have been processed. -/
theorem threads_upto (π : σ → Nat → β) (f : Nat → β → β) (body : Nat → σ → σ)
    (hframe : ∀ i j s, i ≠ j → π (body i s) j = π s j)
    (hlocal : ∀ i s, π (body i s) i = f i (π s i))
    (T n : Nat) (s : σ) (j : Nat) :
    ∀ k, k ≤ T →
      π ((List.range k).foldl (fun acc tid => threadLoop T n body n tid acc) s) j =
        if j < n ∧ j % T < k then f j (π s j) else π s j := by
  intro k
  induction k with
  | zero => intro _; simp
  | succ k ih =>
    intro hk
    have hT : 0 < T := by omega
    rw [List.range_succ, List.foldl_append, List.foldl_cons, List.foldl_nil,
      threadLoop_slice π f body hframe hlocal T n hT j n k _ (by omega), ih (by omega)]
    have hkmod : k % T = k := Nat.mod_eq_of_lt (by omega)
    rw [hkmod]
    by_cases hjn : j < n
    · by_cases hjk : j % T = k
      · have hle : k ≤ j := hjk ▸ Nat.mod_le j T
        rw [if_pos ⟨hle, hjn, hjk⟩, if_neg (by omega), if_pos ⟨hjn, by omega⟩]
      · rw [if_neg (fun h => hjk h.2.2)]
        by_cases hlt : j % T < k
        · rw [if_pos ⟨hjn, hlt⟩, if_pos ⟨hjn, by omega⟩]
        · rw [if_neg (fun h => hlt h.2), if_neg (fun h => by omega)]
    · rw [if_neg (fun h => hjn h.2.1), if_neg (fun h => hjn h.1), if_neg (fun h => hjn h.1)]

/-- A kernel loop whose body at index `i` touches only the slice `π · i` of
the state, turning it into `f i`, turns the slice at every `j < n` into
`f j` of its initial value, and leaves every other slice alone (launch with at
least one thread). -/
theorem HIP_1D_KERNEL_LOOP_slice (π : σ → Nat → β) (f : Nat → β → β) (body : Nat → σ → σ)
    (hframe : ∀ i j s, i ≠ j → π (body i s) j = π s j)
    (hlocal : ∀ i s, π (body i s) i = f i (π s i))
    (gridDim blockDim : Nat) (hgrid : 0 < gridDim * blockDim) (n : Int) (s : σ) (j : Nat) :
    π (HIP_1D_KERNEL_LOOP gridDim blockDim n body s) j =
      if (j : Int) < n then f j (π s j) else π s j := by
  unfold HIP_1D_KERNEL_LOOP
  rw [Nat.mul_comm blockDim gridDim,
    threads_upto π f body hframe hlocal (gridDim * blockDim) n.toNat s j _ (le_refl _)]
  have hmod : j % (gridDim * blockDim) < gridDim * blockDim := Nat.mod_lt _ hgrid
  by_cases hj : (j : Int) < n
  · rw [if_pos hj, if_pos ⟨by omega, hmod⟩]
  · rw [if_neg hj, if_neg (fun h => hj (by omega))]

/-- One thread never touches a slice at an index that is not below `n`. -/
theorem threadLoop_frame (π : σ → Nat → β) (body : Nat → σ → σ)
    (hframe : ∀ i j s, i ≠ j → π (body i s) j = π s j)
    (stride n : Nat) (j : Nat) (hj : n ≤ j) :
    ∀ (fuel i : Nat) (s : σ), π (threadLoop stride n body fuel i s) j = π s j := by
  intro fuel
  induction fuel with
  | zero => intro i s; rfl
  | succ fuel ih =>
    intro i s
    unfold threadLoop
    by_cases hin : i < n
    · rw [if_pos hin, ih, hframe i j s (by omega)]
    · rw [if_neg hin]

/-- A kernel loop never touches a slice at an index that is not below `n`,
whatever the launch configuration. -/
theorem HIP_1D_KERNEL_LOOP_frame (π : σ → Nat → β) (body : Nat → σ → σ)
    (hframe : ∀ i j s, i ≠ j → π (body i s) j = π s j)
    (gridDim blockDim : Nat) (n : Int) (s : σ) (j : Nat) (hj : n ≤ (j : Int)) :
    π (HIP_1D_KERNEL_LOOP gridDim blockDim n body s) j = π s j := by
  unfold HIP_1D_KERNEL_LOOP
  have hn : n.toNat ≤ j := by omega
  generalize List.range (gridDim * blockDim) = tids
  induction tids generalizing s with
  | nil => rfl
  | cons t ts ih =>
    rw [List.foldl_cons, ih, threadLoop_frame π body hframe _ _ j hn]

end Loop

/-- The kernel loop over a memory: when the body at index `i` stores at
index `i` only and reads at index `i` only, the elements at index `j < n`
after the loop are those the body at `j` leaves, computed from the elements
at index `j` before the loop; the other indices keep their elements. -/
theorem HIP_1D_KERNEL_LOOP_elementwise {α : Type}
    (body : Nat → (Ptr → Nat → α) → (Ptr → Nat → α))
    (hframe : ∀ i j h, i ≠ j → slice (body i h) j = slice h j)
    (hlocal : ∀ i h, slice (body i h) i = slice (body i (ofSlice (slice h i))) i)
    (gridDim blockDim : Nat) (hgrid : 0 < gridDim * blockDim) (n : Int)
    (h : Ptr → Nat → α) (j : Nat) :
    slice (HIP_1D_KERNEL_LOOP gridDim blockDim n body h) j =
      if (j : Int) < n then slice (body j (ofSlice (slice h j))) j else slice h j :=
  HIP_1D_KERNEL_LOOP_slice slice (fun i sl => slice (body i (ofSlice sl)) i) body
    hframe hlocal gridDim blockDim hgrid n h j

/-! ## abs_op_hip.cc: the kernels are elementwise -/

theorem fabs_eq_abs {R : Type} [LinearOrderedRing R] (x : R) : fabs x = |x| := by
  unfold fabs
  split_ifs with h
  · exact (abs_of_neg h).symm
  · exact (abs_of_nonneg (not_lt.1 h)).symm

theorem AbsKernel_apply {R : Type} [LinearOrderedRing R] (gridDim blockDim : Nat)
    (hgrid : 0 < gridDim * blockDim) (N : Int) (X Y : Ptr) (h : Ptr → Nat → R)
    (j : Nat) (hj : (j : Int) < N) :
    AbsKernel gridDim blockDim N X Y h Y j = fabs (h X j) := by
  have key := HIP_1D_KERNEL_LOOP_elementwise (AbsKernel.body X Y)
    (fun i k m hik => by
      funext q
      simp [slice, AbsKernel.body, store, Ne.symm hik])
    (fun i m => by
      funext q
      simp [slice, ofSlice, AbsKernel.body, store])
    gridDim blockDim hgrid N h j
  rw [if_pos hj] at key
  have := congrFun key Y
  simpa [slice, ofSlice, AbsKernel.body, store, AbsKernel] using this

theorem AbsGradientKernel_apply {R : Type} [LinearOrderedRing R] (gridDim blockDim : Nat)
    (hgrid : 0 < gridDim * blockDim) (N : Int) (X dY dX : Ptr) (h : Ptr → Nat → R)
    (j : Nat) (hj : (j : Int) < N) :
    AbsGradientKernel gridDim blockDim N X dY dX h dX j =
      if h X j = 0 then 0 else (if h X j > 0 then h dY j else -h dY j) := by
  have key := HIP_1D_KERNEL_LOOP_elementwise (AbsGradientKernel.body X dY dX)
    (fun i k m hik => by
      funext q
      simp [slice, AbsGradientKernel.body, store, Ne.symm hik])
    (fun i m => by
      funext q
      simp [slice, ofSlice, AbsGradientKernel.body, store])
    gridDim blockDim hgrid N h j
  rw [if_pos hj] at key
  have := congrFun key dX
  simpa [slice, ofSlice, AbsGradientKernel.body, store, AbsGradientKernel] using this

/-- C5: for every `N` and every index `i < N`, with `X[i]` and `dY[i]` the
inputs before the kernel, `AbsKernel` leaves `Y[i] = |X[i]|` and
`AbsGradientKernel` leaves `dX[i] = sign(X[i]) * dY[i]`, that is `dY[i]` when
`X[i] > 0`, `-dY[i]` when `X[i] < 0` and `0` when `X[i] = 0`; and output
element `i` depends on nothing but input element `i`: memories that agree on
`X[i]` and `dY[i]` give the same output at `i`, whatever else they hold and
whatever the launch grid (a launch has at least one thread). The output
buffer may be one of the input buffers. -/
theorem AbsGradientKernel_is_gradient_of_AbsKernel {R : Type} [LinearOrderedRing R]
    (gridDim blockDim : Nat) (hgrid : 0 < gridDim * blockDim) (N : Int)
    (X dY Y dX : Ptr) (h : Ptr → Nat → R) (i : Nat) (hi : (i : Int) < N) :
    AbsKernel gridDim blockDim N X Y h Y i = |h X i| ∧
    AbsGradientKernel gridDim blockDim N X dY dX h dX i =
      (SignType.sign (h X i) : R) * h dY i ∧
    (0 < h X i → AbsGradientKernel gridDim blockDim N X dY dX h dX i = h dY i) ∧
    (h X i < 0 → AbsGradientKernel gridDim blockDim N X dY dX h dX i = -h dY i) ∧
    (h X i = 0 → AbsGradientKernel gridDim blockDim N X dY dX h dX i = 0) ∧
    (∀ (gridDim2 blockDim2 : Nat) (N2 : Int) (h2 : Ptr → Nat → R),
      0 < gridDim2 * blockDim2 → (i : Int) < N2 → h2 X i = h X i → h2 dY i = h dY i →
      AbsKernel gridDim2 blockDim2 N2 X Y h2 Y i = AbsKernel gridDim blockDim N X Y h Y i ∧
      AbsGradientKernel gridDim2 blockDim2 N2 X dY dX h2 dX i =
        AbsGradientKernel gridDim blockDim N X dY dX h dX i) := by
  have hA := AbsKernel_apply gridDim blockDim hgrid N X Y h i hi
  have hG := AbsGradientKernel_apply gridDim blockDim hgrid N X dY dX h i hi
  refine ⟨?_, ?_, ?_, ?_, ?_, ?_⟩
  · rw [hA, fabs_eq_abs]
  · rw [hG]
    rcases lt_trichotomy (h X i) 0 with hx | hx | hx
    · rw [if_neg (ne_of_lt hx), if_neg (not_lt.2 (le_of_lt hx)), sign_neg hx]
      simp
    · rw [if_pos hx, hx, sign_zero]
      simp
    · rw [if_neg (ne_of_gt hx), if_pos hx, sign_pos hx]
      simp
  · intro hx
    rw [hG, if_neg (ne_of_gt hx), if_pos hx]
  · intro hx
    rw [hG, if_neg (ne_of_lt hx), if_neg (not_lt.2 (le_of_lt hx))]
  · intro hx
    rw [hG, if_pos hx]
  · intro gridDim2 blockDim2 N2 h2 hgrid2 hi2 hX hdY
    rw [hA, hG, AbsKernel_apply gridDim2 blockDim2 hgrid2 N2 X Y h2 i hi2,
      AbsGradientKernel_apply gridDim2 blockDim2 hgrid2 N2 X dY dX h2 i hi2, hX, hdY]
    exact ⟨rfl, rfl⟩

/-- Witness of C5: one block of two threads on three integers, `X` at
pointer 1 holding `-2, -1, 0`, `dY` at pointer 2 holding `5`; `AbsKernel` runs
in place and `AbsGradientKernel` writes to pointer 3. -/
theorem AbsGradientKernel_is_gradient_of_AbsKernel_witness :
    0 < 1 * 2 ∧ ((1 : Nat) : Int) < 3 ∧
    AbsKernel 1 2 3 1 1 (fun p k => if p = 1 then (k : Int) - 2 else 5) 1 1 = 1 ∧
    AbsGradientKernel 1 2 3 1 2 3 (fun p k => if p = 1 then (k : Int) - 2 else 5) 3 1
      = -5 := by
  have hw := AbsGradientKernel_is_gradient_of_AbsKernel 1 2 (by decide) 3 1 2 1 3
    (fun p k => if p = 1 then (k : Int) - 2 else 5) 1 (by decide)
  refine ⟨by decide, by decide, ?_, ?_⟩
  · rw [hw.1]; decide
  · rw [hw.2.2.2.1 (by decide)]; decide

/-! ## fp32_momentum_sgd_op_hip.cc: the update of one `float2` element -/

theorem FP32MomentumSGDKernel.body_frame {R : Type} [CommRing R] (g m ng nm : Ptr)
    (LR momentum weight_decay : R) (param : Ptr) (i j : Nat) (h : Ptr → Nat → float2 R)
    (hij : i ≠ j) :
    slice (FP32MomentumSGDKernel.body g m ng nm LR momentum weight_decay param i h) j =
      slice h j := by
  funext q
  by_cases hp : param = 0 <;>
    simp [slice, FP32MomentumSGDKernel.body, store, Ne.symm hij, hp]

theorem FP32MomentumSGDKernel.bodyNesterov_frame {R : Type} [CommRing R]
    (g m ng nm : Ptr) (LR momentum weight_decay : R) (param : Ptr) (i j : Nat)
    (h : Ptr → Nat → float2 R) (hij : i ≠ j) :
    slice (FP32MomentumSGDKernel.bodyNesterov g m ng nm LR momentum weight_decay param i h) j
      = slice h j := by
  funext q
  by_cases hp : param = 0 <;>
    simp [slice, FP32MomentumSGDKernel.bodyNesterov, store, Ne.symm hij, hp]

theorem FP32MomentumSGDKernel.body_local {R : Type} [CommRing R] (g m ng nm : Ptr)
    (LR momentum weight_decay : R) (param : Ptr) (i : Nat) (h : Ptr → Nat → float2 R) :
    slice (FP32MomentumSGDKernel.body g m ng nm LR momentum weight_decay param i h) i =
      slice (FP32MomentumSGDKernel.body g m ng nm LR momentum weight_decay param i
        (ofSlice (slice h i))) i := by
  funext q
  by_cases hp : param = 0 <;>
    simp [slice, ofSlice, FP32MomentumSGDKernel.body, store, hp]

/-- The kernel leaves every `float2` element from index `N / 2` on as it
was, in both branches and for every launch grid. -/
theorem FP32MomentumSGDKernel_frame {R : Type} [CommRing R] (gridDim blockDim : Nat)
    (N : Int) (g m ng nm : Ptr) (lr : Nat → R) (mom : R) (nesterov : Bool)
    (wd : R) (param : Ptr) (h : Ptr → Nat → float2 R) (j : Nat)
    (hj : Int.tdiv N 2 ≤ (j : Int)) :
    slice (FP32MomentumSGDKernel gridDim blockDim N g m ng nm lr mom nesterov wd param h) j =
      slice h j := by
  unfold FP32MomentumSGDKernel
  cases nesterov
  · exact HIP_1D_KERNEL_LOOP_frame slice
      (FP32MomentumSGDKernel.body g m ng nm (lr 0) mom wd param)
      (fun i k s hik => FP32MomentumSGDKernel.body_frame g m ng nm (lr 0) mom wd param i k s hik)
      gridDim blockDim (Int.tdiv N 2) h j hj
  · exact HIP_1D_KERNEL_LOOP_frame slice
      (FP32MomentumSGDKernel.bodyNesterov g m ng nm (lr 0) mom wd param)
      (fun i k s hik =>
        FP32MomentumSGDKernel.bodyNesterov_frame g m ng nm (lr 0) mom wd param i k s hik)
      gridDim blockDim (Int.tdiv N 2) h j hj

/-- C2: `FP32MomentumSGDKernel` with `nesterov = false`, the float operations
read as exact arithmetic: for every pair index `i < N / 2` and each of the
two components, with `g`, `m`, `p` the values of `g`, `m`, `param` before the
call, the new momentum and the output gradient are both
`lr[0] * (g + wd * p) + mom * m` and the new parameter is
`p - (lr[0] * (g + wd * p) + mom * m)`. The launch has at least one thread;
`param` is not null; `ng` may be the buffer `g` and `nm` the buffer `m` (the
operator run in place), `param` is neither of the buffers `ng`, `nm`, and `m`
is not the buffer `ng`. -/
theorem FP32MomentumSGDKernel_momentum_update {R : Type} [CommRing R]
    (gridDim blockDim : Nat) (hgrid : 0 < gridDim * blockDim) (N : Int)
    (g m ng nm : Ptr) (lr : Nat → R) (mom wd : R) (param : Ptr)
    (h : Ptr → Nat → float2 R)
    (hparam : param ≠ 0) (hpg : param ≠ ng) (hpm : param ≠ nm) (hmg : m ≠ ng)
    (i : Nat) (hi : (i : Int) < Int.tdiv N 2) :
    FP32MomentumSGDKernel gridDim blockDim N g m ng nm lr mom false wd param h nm i =
      { x := lr 0 * ((h g i).x + wd * (h param i).x) + mom * (h m i).x
        y := lr 0 * ((h g i).y + wd * (h param i).y) + mom * (h m i).y } ∧
    FP32MomentumSGDKernel gridDim blockDim N g m ng nm lr mom false wd param h ng i =
      { x := lr 0 * ((h g i).x + wd * (h param i).x) + mom * (h m i).x
        y := lr 0 * ((h g i).y + wd * (h param i).y) + mom * (h m i).y } ∧
    FP32MomentumSGDKernel gridDim blockDim N g m ng nm lr mom false wd param h param i =
      { x := (h param i).x - (lr 0 * ((h g i).x + wd * (h param i).x) + mom * (h m i).x)
        y := (h param i).y - (lr 0 * ((h g i).y + wd * (h param i).y) + mom * (h m i).y) }
      := by
  have key := HIP_1D_KERNEL_LOOP_elementwise
    (FP32MomentumSGDKernel.body g m ng nm (lr 0) mom wd param)
    (fun i k s hik => FP32MomentumSGDKernel.body_frame g m ng nm (lr 0) mom wd param i k s hik)
    (fun i s => FP32MomentumSGDKernel.body_local g m ng nm (lr 0) mom wd param i s)
    gridDim blockDim hgrid (Int.tdiv N 2) h i
  rw [if_pos hi] at key
  have hgp : ng ≠ param := Ne.symm hpg
  have hmp : nm ≠ param := Ne.symm hpm
  have e1 := congrFun key nm
  have e2 := congrFun key ng
  have e3 := congrFun key param
  simp only [slice] at e1 e2 e3
  refine ⟨?_, ?_, ?_⟩
  · unfold FP32MomentumSGDKernel
    simp only [Bool.not_false, if_true]
    rw [e1]
    by_cases hg : g = ng <;>
      simp [ofSlice, slice, FP32MomentumSGDKernel.body, store, __fmaf_rn, __fmul_rn,
        __fsub_rn, hpg, hpm, hmg, hgp, hmp, hg, hparam] <;>
      constructor <;> ring
  · unfold FP32MomentumSGDKernel
    simp only [Bool.not_false, if_true]
    rw [e2]
    by_cases hg : g = ng <;>
      simp [ofSlice, slice, FP32MomentumSGDKernel.body, store, __fmaf_rn, __fmul_rn,
        __fsub_rn, hpg, hpm, hmg, hgp, hmp, hg, hparam] <;>
      constructor <;> ring
  · unfold FP32MomentumSGDKernel
    simp only [Bool.not_false, if_true]
    rw [e3]
    by_cases hg : g = ng <;>
      simp [ofSlice, slice, FP32MomentumSGDKernel.body, store, __fmaf_rn, __fmul_rn,
        __fsub_rn, hpg, hpm, hmg, hgp, hmp, hg, hparam] <;>
      constructor <;> ring

/-- Witness of C2: four floats (two pairs), one block of one thread, the
operator run in place: `g` and `ng` are buffer 1, `m` and `nm` buffer 2,
`param` buffer 3. -/
theorem FP32MomentumSGDKernel_momentum_update_witness :
    0 < 1 * 1 ∧ (3 : Ptr) ≠ 0 ∧ (3 : Ptr) ≠ 1 ∧ (3 : Ptr) ≠ 2 ∧ (2 : Ptr) ≠ 1 ∧
    ((1 : Nat) : Int) < Int.tdiv 4 2 ∧
    (FP32MomentumSGDKernel 1 1 4 1 2 1 2 (fun _ => 3) 7 false 2 3
      (fun p k => if p = 1 then ⟨(k : Int) + 1, 2⟩ else if p = 2 then ⟨3, 1⟩ else ⟨5, 6⟩)
      2 1).x = 57 ∧
    (FP32MomentumSGDKernel 1 1 4 1 2 1 2 (fun _ => 3) 7 false 2 3
      (fun p k => if p = 1 then ⟨(k : Int) + 1, 2⟩ else if p = 2 then ⟨3, 1⟩ else ⟨5, 6⟩)
      3 1).y = -43 := by
  have hw := FP32MomentumSGDKernel_momentum_update 1 1 (by decide) 4 1 2 1 2
    (fun _ => 3) 7 2 3
    (fun p k => if p = 1 then ⟨(k : Int) + 1, 2⟩ else if p = 2 then ⟨3, 1⟩ else ⟨5, 6⟩)
    (by decide) (by decide) (by decide) (by decide) 1 (by decide)
  refine ⟨by decide, by decide, by decide, by decide, by decide, by decide, ?_, ?_⟩
  · rw [hw.1]; decide
  · rw [hw.2.2]; decide

/-! ## fp32_momentum_sgd_op_hip.cc: the last element of an odd-sized tensor -/

/-- For an odd `N = 2 * k + 1` the call leaves the last element, index
`2 * k`, of every buffer as it was, for every launch constant and in both
branches. -/
theorem fp32_momentum_sgd_update_odd_tail {R : Type} [CommRing R]
    (CAFFE_GET_BLOCKS : Int → Nat) (CAFFE_HIP_NUM_THREADS : Nat) (k : Nat)
    (g m ng nm : Ptr) (lr : Nat → R) (momentum : R) (nesterov : Bool)
    (weight_decay : R) (param : Ptr) (h : Ptr → Nat → R) (q : Ptr) :
    fp32_momentum_sgd_update CAFFE_GET_BLOCKS CAFFE_HIP_NUM_THREADS (2 * (k : Int) + 1)
      g m ng nm lr momentum nesterov weight_decay param h q (2 * k) = h q (2 * k) := by
  have hdiv : Int.tdiv (2 * (k : Int) + 1) 2 = (k : Int) := by
    rw [Int.tdiv_eq_ediv (by omega) (by omega)]
    omega
  have hfr := congrFun (FP32MomentumSGDKernel_frame
    (CAFFE_GET_BLOCKS (Int.tdiv (2 * (k : Int) + 1) 2))
    CAFFE_HIP_NUM_THREADS (2 * (k : Int) + 1) g m ng nm lr momentum nesterov weight_decay
    param (reinterpret_cast_float2 h) k (by rw [hdiv])) q
  simp only [slice] at hfr
  have hk : 2 * k / 2 = k := by omega
  have hm : 2 * k % 2 = 0 := by omega
  simp only [fp32_momentum_sgd_update, float2_as_float, hk, hm, if_true, hfr,
    reinterpret_cast_float2]

/-- C3 (the code at the failing input): called with `N = 3` on a gradient
`g = 1, 1, 1` (buffer 1), a momentum `m = 0, 0, 0` (buffer 2), outputs `ng`
and `nm` (buffers 3 and 4) that hold `0, 0, 0`, a parameter
`param = 5, 5, 5` (buffer 5), `lr = 1`, `momentum = 0`, `weight_decay = 0`,
the call leaves element `2` of `ng`, `nm` and `param` at `0`, `0` and `5`,
for every launch constant and in both branches, whereas the update of an
element gives `1`, `1` and `4`, as it does at elements `0` and `1` (one block
of one thread, `nesterov = false`). -/
theorem fp32_momentum_sgd_update_leaves_last_of_three :
    (∀ (CAFFE_GET_BLOCKS : Int → Nat) (CAFFE_HIP_NUM_THREADS : Nat) (nesterov : Bool),
      fp32_momentum_sgd_update CAFFE_GET_BLOCKS CAFFE_HIP_NUM_THREADS 3 1 2 3 4
        (fun _ => (1 : Int)) 0 nesterov 0 5
        (fun p _ => if p = 1 then 1 else if p = 5 then 5 else 0) 3 2 = 0 ∧
      fp32_momentum_sgd_update CAFFE_GET_BLOCKS CAFFE_HIP_NUM_THREADS 3 1 2 3 4
        (fun _ => (1 : Int)) 0 nesterov 0 5
        (fun p _ => if p = 1 then 1 else if p = 5 then 5 else 0) 4 2 = 0 ∧
      fp32_momentum_sgd_update CAFFE_GET_BLOCKS CAFFE_HIP_NUM_THREADS 3 1 2 3 4
        (fun _ => (1 : Int)) 0 nesterov 0 5
        (fun p _ => if p = 1 then 1 else if p = 5 then 5 else 0) 5 2 = 5) ∧
    (List.range 3).map (fp32_momentum_sgd_update (fun _ => 1) 1 3 1 2 3 4
        (fun _ => (1 : Int)) 0 false 0 5
        (fun p _ => if p = 1 then 1 else if p = 5 then 5 else 0) 3) = [1, 1, 0] ∧
    (List.range 3).map (fp32_momentum_sgd_update (fun _ => 1) 1 3 1 2 3 4
        (fun _ => (1 : Int)) 0 false 0 5
        (fun p _ => if p = 1 then 1 else if p = 5 then 5 else 0) 4) = [1, 1, 0] ∧
    (List.range 3).map (fp32_momentum_sgd_update (fun _ => 1) 1 3 1 2 3 4
        (fun _ => (1 : Int)) 0 false 0 5
        (fun p _ => if p = 1 then 1 else if p = 5 then 5 else 0) 5) = [4, 4, 5] := by
  refine ⟨?_, by decide, by decide, by decide⟩
  intro blocks threads nesterov
  exact ⟨fp32_momentum_sgd_update_odd_tail blocks threads 1 1 2 3 4 (fun _ => (1 : Int)) 0
      nesterov 0 5 (fun p _ => if p = 1 then 1 else if p = 5 then 5 else 0) 3,
    fp32_momentum_sgd_update_odd_tail blocks threads 1 1 2 3 4 (fun _ => (1 : Int)) 0
      nesterov 0 5 (fun p _ => if p = 1 then 1 else if p = 5 then 5 else 0) 4,
    fp32_momentum_sgd_update_odd_tail blocks threads 1 1 2 3 4 (fun _ => (1 : Int)) 0
      nesterov 0 5 (fun p _ => if p = 1 then 1 else if p = 5 then 5 else 0) 5⟩

/-! ## mem_query_op_hip.cc: the output blob -/

/-- C1: with 0 inputs and 1 output, for every pair of per-GPU vectors of
equal length `n`, `GetGPUMemoryUsageOp::RunOnDevice` returns `true` and leaves
an output of shape `(2, n)` whose flat contents are `total_by_gpu` followed by
`max_by_gpu`: for every `g < n`, `output[0][g] = total_by_gpu[g]` and
`output[1][g] = max_by_gpu[g]`. -/
theorem GetGPUMemoryUsageOp_RunOnDevice_output (total_by_gpu max_by_gpu : List Int)
    (hlen : total_by_gpu.length = max_by_gpu.length) (Output0 : Tensor) :
    ∃ stats : Tensor,
      GetGPUMemoryUsageOp.RunOnDevice 0 1 total_by_gpu max_by_gpu Output0 =
        some (true, stats) ∧
      stats.dims = [2, total_by_gpu.length] ∧
      stats.flat = total_by_gpu ++ max_by_gpu ∧
      ∀ g, g < total_by_gpu.length →
        some (stats.data (0 * total_by_gpu.length + g)) = total_by_gpu[g]? ∧
        some (stats.data (1 * total_by_gpu.length + g)) = max_by_gpu[g]? := by
  refine ⟨{ dims := [2, total_by_gpu.length],
             data := Copy max_by_gpu.length (vector_data max_by_gpu)
               (Copy total_by_gpu.length (vector_data total_by_gpu) Output0.data 0)
               total_by_gpu.length }, ?_, rfl, ?_, ?_⟩
  · unfold GetGPUMemoryUsageOp.RunOnDevice
    rw [if_neg (by simp), if_neg (by simp), if_neg (by simpa using hlen)]
    rfl
  · apply List.ext_getElem
    · simp [Tensor.flat, Tensor.size]
      omega
    · intro k h1 h2
      simp only [Tensor.flat, List.getElem_map, List.getElem_range, Copy, vector_data]
      by_cases hk : k < total_by_gpu.length
      · rw [if_neg (by omega), if_pos ⟨by omega, by omega⟩, List.getElem_append_left hk]
        simp [List.getD_eq_getElem?_getD, List.getElem?_eq_getElem hk]
      · have hk2 : k - total_by_gpu.length < max_by_gpu.length := by
          simp at h2
          omega
        rw [if_pos ⟨by omega, by omega⟩, List.getElem_append_right (by omega)]
        simp [List.getD_eq_getElem?_getD, List.getElem?_eq_getElem hk2]
  · intro g hg
    have hg2 : g < max_by_gpu.length := by omega
    have e : 1 * total_by_gpu.length + g - total_by_gpu.length = g := by omega
    simp only [Copy, vector_data]
    constructor
    · rw [if_neg (by omega), if_pos ⟨by omega, by omega⟩]
      simp [List.getD_eq_getElem?_getD, List.getElem?_eq_getElem hg]
    · rw [if_pos ⟨by omega, by omega⟩, e]
      simp [List.getD_eq_getElem?_getD, List.getElem?_eq_getElem hg2]

/-- Witness of C1: three GPUs. -/
theorem GetGPUMemoryUsageOp_RunOnDevice_output_witness :
    [(10 : Int), 20, 30].length = [(11 : Int), 22, 33].length ∧
    ∃ stats : Tensor,
      GetGPUMemoryUsageOp.RunOnDevice 0 1 [10, 20, 30] [11, 22, 33]
        { dims := [], data := fun _ => 0 } = some (true, stats) ∧
      stats.dims = [2, 3] ∧ stats.flat = [10, 20, 30, 11, 22, 33] :=
  ⟨by decide,
    (GetGPUMemoryUsageOp_RunOnDevice_output [10, 20, 30] [11, 22, 33] (by decide)
      { dims := [], data := fun _ => 0 }).imp fun _ h => ⟨h.1, h.2.1, h.2.2.1⟩⟩

/-! ## relu_op_miopen.cc: the dimensions of the 4-d descriptor -/

theorem int_cast_of_int {v : Int} (h0 : 0 ≤ v) (h1 : v ≤ INT_MAX) : int_cast v = v := by
  unfold int_cast
  unfold INT_MAX at h1
  omega

theorem dim32_of_lt (dims : List Nat) (i d : Nat) (hd : dims[i]? = some d)
    (hlt : (d : Int) < INT_MAX) : dim32 dims i = some (d : Int) := by
  unfold dim32
  rw [hd]
  simp [hlt]

/-- The two operators run the same code on their first input. -/
theorem MiOPENReluGradientOp_DoRunWithType_eq (Y : List Nat) (self : MiOPENReluState) :
    MiOPENReluGradientOp.DoRunWithType Y self = MiOPENReluOp.DoRunWithType Y self := rfl

/-- C4 (the code at the failing input): on a non-empty tensor of dims
`(1, 4294967301)` the quotient `size / dim(0) = 4294967301` is stored in the
`int C` as `5`; the descriptor is set to `(1, 5, 1, 1)`, whose product is
not the size of the tensor, and `C` is not `size / dim(0)`. Likewise dims
`(1, 2147483648)` give the descriptor `(1, -2147483648, 1, 1)`. -/
theorem MiOPENRelu_descriptor_wraps_large_quotient :
    size [1, 4294967301] ≠ 0 ∧ 1 ≤ ndim [1, 4294967301] ∧
    MiOPENReluOp.DoRunWithType [1, 4294967301] MiOPENReluState.init =
      some (true, { miopen_input_dims_ := [1, 4294967301],
                    data_desc_ := some (1, 5, 1, 1) }) ∧
    MiOPENReluGradientOp.DoRunWithType [1, 4294967301] MiOPENReluState.init =
      some (true, { miopen_input_dims_ := [1, 4294967301],
                    data_desc_ := some (1, 5, 1, 1) }) ∧
    (1 : Int) * 5 * 1 * 1 ≠ size [1, 4294967301] ∧
    (5 : Int) ≠ size [1, 4294967301] / 1 ∧
    MiOPENReluOp.DoRunWithType [1, 2147483648] MiOPENReluState.init =
      some (true, { miopen_input_dims_ := [1, 2147483648],
                    data_desc_ := some (1, -2147483648, 1, 1) }) ∧
    (1 : Int) * (-2147483648) * 1 * 1 ≠ size [1, 2147483648] := by
  decide

theorem size_of_le (dims : List Nat) (h : ((dims.prod : Nat) : Int) ≤ INT64_MAX) :
    size dims = ((dims.prod : Nat) : Int) := by
  unfold size TIndex_cast
  unfold INT64_MAX at h
  omega

/-- Within the range of the machine integers the descriptor wraps the whole
tensor: for every non-empty input tensor with at least one dimension whose
number of items is at most `INT64_MAX`, whose dimensions read through `dim32`
are below `INT_MAX` (all four when `ndim = 4`, `dim(0)` otherwise) and, when
`ndim` is not 4, whose quotient `size / dim(0)` is at most `INT_MAX`, both
operators, run with cached dims that differ from the tensor's, return `true`
and set descriptor dimensions `(n, C, H, W)` with `n * C * H * W = size`; for
`ndim = 4` they are the four dims, otherwise `n = dim(0)`,
`C = size / dim(0)`, `H = W = 1`, the divisor being non-zero and the division
exact. -/
theorem MiOPENRelu_descriptor_within_int_range (X : List Nat) (self : MiOPENReluState)
    (hsize : size X ≠ 0) (hndim : 1 ≤ ndim X)
    (h64 : ((X.prod : Nat) : Int) ≤ INT64_MAX)
    (hfit : if ndim X = 4 then ∀ d ∈ X, (d : Int) < INT_MAX
      else (X.headD 0 : Int) < INT_MAX ∧ size X / (X.headD 0 : Int) ≤ INT_MAX)
    (hnew : X ≠ self.miopen_input_dims_) :
    ∃ n C H W : Int,
      MiOPENReluOp.DoRunWithType X self =
        some (true, { miopen_input_dims_ := X, data_desc_ := some (n, C, H, W) }) ∧
      MiOPENReluGradientOp.DoRunWithType X self =
        some (true, { miopen_input_dims_ := X, data_desc_ := some (n, C, H, W) }) ∧
      n * C * H * W = size X ∧
      (ndim X = 4 → X.map (fun d => (d : Int)) = [n, C, H, W]) ∧
      (ndim X ≠ 4 → n = (X.headD 0 : Int) ∧ n ≠ 0 ∧ C = size X / n ∧ size X % n = 0 ∧
        H = 1 ∧ W = 1) := by
  rw [MiOPENReluGradientOp_DoRunWithType_eq]
  rcases X with _ | ⟨a, rest⟩
  · simp [ndim] at hndim
  have hS := size_of_le (a :: rest) h64
  have hprod : (a : Int) * (rest.prod : Nat) = size (a :: rest) := by
    rw [hS]
    simp
  have ha : (a : Int) ≠ 0 := by
    intro h
    apply hsize
    rw [← hprod, h, zero_mul]
  by_cases h4 : ndim (a :: rest) = 4
  · rw [if_pos h4] at hfit
    rcases rest with _ | ⟨b, _ | ⟨c, _ | ⟨d, _ | ⟨e, t⟩⟩⟩⟩ <;> simp [ndim] at h4
    have hfa := hfit a (by simp)
    have hfb := hfit b (by simp)
    have hfc := hfit c (by simp)
    have hfd := hfit d (by simp)
    have hrun : MiOPENReluOp.DoRunWithType [a, b, c, d] self =
        some (true, { miopen_input_dims_ := [a, b, c, d],
                      data_desc_ := some ((a : Int), (b : Int), (c : Int), (d : Int)) }) := by
      unfold MiOPENReluOp.DoRunWithType
      rw [if_neg hsize, if_pos hnew, if_pos (by simp [ndim]),
        dim32_of_lt [a, b, c, d] 0 a (by simp) hfa,
        dim32_of_lt [a, b, c, d] 1 b (by simp) hfb,
        dim32_of_lt [a, b, c, d] 2 c (by simp) hfc,
        dim32_of_lt [a, b, c, d] 3 d (by simp) hfd]
      rfl
    refine ⟨a, b, c, d, hrun, hrun, ?_, ?_, ?_⟩
    · rw [hS]
      simp
      ring
    · intro _
      rfl
    · intro h
      simp [ndim] at h
  · rw [if_neg h4] at hfit
    simp only [List.headD_cons] at hfit
    obtain ⟨hfa, hq⟩ := hfit
    have hdiv : size (a :: rest) / (a : Int) = (rest.prod : Nat) := by
      rw [← hprod]
      exact Int.mul_ediv_cancel_left _ ha
    have htdiv : Int.tdiv (size (a :: rest)) (a : Int) = (rest.prod : Nat) := by
      rw [Int.tdiv_eq_ediv (by rw [hS]; exact Int.natCast_nonneg _) (by omega), hdiv]
    have hcast : int_cast ((rest.prod : Nat) : Int) = (rest.prod : Nat) :=
      int_cast_of_int (by omega) (by rw [← hdiv]; exact hq)
    have hrun : MiOPENReluOp.DoRunWithType (a :: rest) self =
        some (true, { miopen_input_dims_ := a :: rest,
                      data_desc_ := some ((a : Int), ((rest.prod : Nat) : Int), 1, 1) }) := by
      unfold MiOPENReluOp.DoRunWithType
      rw [if_neg hsize, if_pos hnew, if_neg h4, dim32_of_lt (a :: rest) 0 a (by simp) hfa]
      simp only [Option.bind_eq_bind, Option.some_bind, if_neg ha, htdiv, hcast]
      rfl
    refine ⟨a, (rest.prod : Nat), 1, 1, hrun, hrun, ?_, ?_, ?_⟩
    · rw [← hprod]
      ring
    · intro h
      exact absurd h h4
    · intro _
      refine ⟨by simp, ha, hdiv.symm, ?_, rfl, rfl⟩
      rw [← hprod]
      exact Int.mul_emod_right _ _

/-- An instance within the range: a `2 x 3 x 4` tensor gives
`(2, 12, 1, 1)`. -/
theorem MiOPENRelu_descriptor_within_int_range_instance :
    ∃ n C H W : Int,
      MiOPENReluOp.DoRunWithType [2, 3, 4] MiOPENReluState.init =
        some (true, { miopen_input_dims_ := [2, 3, 4], data_desc_ := some (n, C, H, W) }) ∧
      n * C * H * W = size [2, 3, 4] ∧ (n, C, H, W) = (2, 12, 1, 1) := by
  obtain ⟨n, C, H, W, h1, -, h3, -, h5⟩ :=
    MiOPENRelu_descriptor_within_int_range [2, 3, 4] MiOPENReluState.init
      (by decide) (by decide) (by decide) (by decide) (by decide)
  obtain ⟨hn, -, hC, -, hH, hW⟩ := h5 (by decide)
  refine ⟨n, C, H, W, h1, h3, ?_⟩
  subst hn hH hW
  rw [hC]
  decide

end caffe2
